import Mathlib

set_option linter.unusedVariables false

/-! Verification of the HipSTR read-filtering core: the region data model of
`region.h` and the per-region read filter cascade, annotating writer and
read-group demultiplexer of `bam_processor.cpp`. -/

/-- A target STR region (class `Region` in region.h); `stop` is an exclusive
upper bound. -/
structure Region where
  chrom : String
  start : Int
  stop : Int
  period : Int
  name : String
deriving DecidableEq

/-- `Region::operator<` from region.h: chromosome lexicographically, then
start, then stop. -/
def regionLt (a b : Region) : Prop :=
  if a.chrom ≠ b.chrom then a.chrom < b.chrom
  else if a.start ≠ b.start then a.start < b.start
  else a.stop < b.stop

instance (a b : Region) : Decidable (regionLt a b) := by
  unfold regionLt; infer_instance

/-- The non-strict companion of `regionLt`: the relation in which sorting with
comparator `regionLt` leaves consecutive elements. -/
def regionLe (a b : Region) : Prop := ¬ regionLt b a

instance (a b : Region) : Decidable (regionLe a b) := by
  unfold regionLe; infer_instance

theorem regionLt_iff (a b : Region) :
    regionLt a b ↔
      (a.chrom < b.chrom ∨ (a.chrom = b.chrom ∧
        (a.start < b.start ∨ (a.start = b.start ∧ a.stop < b.stop)))) := by
  unfold regionLt
  rcases eq_or_ne a.chrom b.chrom with hc | hc
  · rcases eq_or_ne a.start b.start with hs | hs
    · simp [hc, hs, lt_irrefl]
    · simp [hc, hs, lt_irrefl]
  · simp [hc]

theorem regionLt_asymm {a b : Region} (h : regionLt a b) : ¬ regionLt b a := by
  rw [regionLt_iff] at *
  rcases h with h | ⟨hc, h⟩
  · rintro (h' | ⟨hc', h'⟩)
    · exact absurd h' (lt_asymm h)
    · exact absurd h (by rw [hc']; exact lt_irrefl _)
  · rintro (h' | ⟨hc', h'⟩)
    · exact absurd h' (by rw [hc]; exact lt_irrefl _)
    · rcases h with h | ⟨hs, h⟩
      · rcases h' with h' | ⟨hs', h'⟩
        · omega
        · omega
      · rcases h' with h' | ⟨hs', h'⟩
        · omega
        · omega

theorem regionLt_trans {a b c : Region} (h1 : regionLt a b) (h2 : regionLt b c) :
    regionLt a c := by
  rw [regionLt_iff] at *
  rcases h1 with h1 | ⟨hc1, h1⟩
  · rcases h2 with h2 | ⟨hc2, h2⟩
    · exact Or.inl (lt_trans h1 h2)
    · exact Or.inl (hc2 ▸ h1)
  · rcases h2 with h2 | ⟨hc2, h2⟩
    · exact Or.inl (hc1 ▸ h2)
    · refine Or.inr ⟨hc1.trans hc2, ?_⟩
      rcases h1 with h1 | ⟨hs1, h1⟩ <;> rcases h2 with h2 | ⟨hs2, h2⟩ <;> omega

/-- Regions whose comparison keys coincide: neither is `regionLt` the other. -/
theorem regionLt_connex {a b : Region} (h1 : ¬ regionLt a b) (h2 : ¬ regionLt b a) :
    a.chrom = b.chrom ∧ a.start = b.start ∧ a.stop = b.stop := by
  rw [regionLt_iff] at h1 h2
  push_neg at h1 h2
  rcases lt_trichotomy a.chrom b.chrom with hc | hc | hc
  · exact absurd hc h1.1
  · refine ⟨hc, ?_⟩
    have h1' := h1.2 hc
    have h2' := h2.2 hc.symm
    omega
  · exact absurd hc h2.1

theorem regionLe_trans {a b c : Region} (h1 : regionLe a b) (h2 : regionLe b c) :
    regionLe a c := by
  unfold regionLe at *
  intro h
  rcases (inferInstance : Decidable (regionLt b a)) with hba | hba
  · rcases (inferInstance : Decidable (regionLt a b)) with hab | hab
    · obtain ⟨hc, hs, ht⟩ := regionLt_connex hab hba
      apply h2
      rw [regionLt_iff] at h ⊢
      rw [hc, hs, ht] at h
      exact h
    · exact h2 (regionLt_trans h hab)
  · exact h1 hba

/-- Insertion of a region into a `regionLt`-sorted list; `sortRegions` models
the effect of `std::sort` with `Region::operator<` in
`RegionGroup::add_region` (the resulting order; tie order among equal keys is
unspecified by `std::sort` as well). -/
def insertRegion (r : Region) : List Region → List Region
  | [] => [r]
  | x :: xs => if regionLt r x then r :: x :: xs else x :: insertRegion r xs

def sortRegions : List Region → List Region
  | [] => []
  | x :: xs => insertRegion x (sortRegions xs)

theorem mem_insertRegion {s r : Region} : ∀ {l : List Region},
    s ∈ insertRegion r l ↔ s = r ∨ s ∈ l := by
  intro l
  induction l with
  | nil => simp [insertRegion]
  | cons x xs ih =>
    by_cases h : regionLt r x
    · simp [insertRegion, h]
    · simp [insertRegion, h, ih]
      tauto

theorem mem_sortRegions {s : Region} : ∀ {l : List Region},
    s ∈ sortRegions l ↔ s ∈ l := by
  intro l
  induction l with
  | nil => simp [sortRegions]
  | cons x xs ih => simp [sortRegions, mem_insertRegion, ih]

theorem pairwise_insertRegion {r : Region} : ∀ {l : List Region},
    List.Pairwise regionLe l → List.Pairwise regionLe (insertRegion r l) := by
  intro l
  induction l with
  | nil => intro _; simp [insertRegion, List.pairwise_singleton]
  | cons x xs ih =>
    intro h
    rcases List.pairwise_cons.mp h with ⟨hx, hxs⟩
    by_cases hlt : regionLt r x
    · rw [insertRegion, if_pos hlt]
      refine List.pairwise_cons.mpr ⟨?_, h⟩
      intro y hy
      rcases List.mem_cons.mp hy with rfl | hy
      · exact regionLt_asymm hlt
      · exact regionLe_trans (regionLt_asymm hlt) (hx y hy)
    · rw [insertRegion, if_neg hlt]
      refine List.pairwise_cons.mpr ⟨?_, ih hxs⟩
      intro y hy
      rcases mem_insertRegion.mp hy with rfl | hy
      · exact hlt
      · exact hx y hy

theorem pairwise_sortRegions : ∀ (l : List Region),
    List.Pairwise regionLe (sortRegions l) := by
  intro l
  induction l with
  | nil => simp [sortRegions]
  | cons x xs ih => exact pairwise_insertRegion ih

/-- `RegionGroup` from region.h. -/
structure RegionGroup where
  regions : List Region
  chrom : String
  start : Int
  stop : Int

/-- The `RegionGroup(Region&)` constructor. -/
def mkRegionGroup (r : Region) : RegionGroup :=
  { regions := [r], chrom := r.chrom, start := r.start, stop := r.stop }

/-- `RegionGroup::add_region`; the `printErrorAndDie` call on a chromosome
mismatch is modelled as `Except.error`. -/
def add_region (g : RegionGroup) (r : Region) : Except String RegionGroup :=
  if r.chrom ≠ g.chrom then
    Except.error "RegionGroup can only consist of regions on a single chromosome"
  else
    Except.ok { regions := sortRegions (g.regions ++ [r]),
                chrom := g.chrom,
                start := min g.start r.start,
                stop := max g.stop r.stop }

/-- A sequence of `add_region` calls, stopping at the first fatal error. -/
def addRegions (g : RegionGroup) : List Region → Except String RegionGroup
  | [] => Except.ok g
  | r :: rs =>
    match add_region g r with
    | Except.error e => Except.error e
    | Except.ok g2 => addRegions g2 rs

/-- The `RegionGroup` invariant: `start`/`stop` are the min/max over the
members, the member list is sorted by the `Region` order, and all members
share the group's chromosome. -/
def groupInv (g : RegionGroup) : Prop :=
  (∀ r ∈ g.regions, g.start ≤ r.start) ∧ (∃ r ∈ g.regions, r.start = g.start) ∧
  (∀ r ∈ g.regions, r.stop ≤ g.stop) ∧ (∃ r ∈ g.regions, r.stop = g.stop) ∧
  List.Pairwise regionLe g.regions ∧
  (∀ r ∈ g.regions, r.chrom = g.chrom)

theorem groupInv_mk (r : Region) : groupInv (mkRegionGroup r) := by
  refine ⟨?_, ⟨r, ?_, rfl⟩, ?_, ⟨r, ?_, rfl⟩, ?_, ?_⟩ <;>
    simp [mkRegionGroup, List.pairwise_singleton]

theorem add_region_ok {g : RegionGroup} {r : Region} (h : r.chrom = g.chrom) :
    add_region g r =
      Except.ok { regions := sortRegions (g.regions ++ [r]),
                  chrom := g.chrom,
                  start := min g.start r.start,
                  stop := max g.stop r.stop } := by
  unfold add_region
  rw [if_neg (by simp [h])]

theorem groupInv_add_region {g : RegionGroup} {r : Region}
    (hinv : groupInv g) (h : r.chrom = g.chrom) :
    ∃ g2, add_region g r = Except.ok g2 ∧ groupInv g2 ∧ g2.chrom = g.chrom := by
  obtain ⟨hmin, ⟨rmin, hrmin, hrminEq⟩, hmax, ⟨rmax, hrmax, hrmaxEq⟩, hsort, hchr⟩ := hinv
  refine ⟨_, add_region_ok h, ?_, rfl⟩
  refine ⟨?_, ?_, ?_, ?_, ?_, ?_⟩
  · intro s hs
    rcases mem_sortRegions.mp hs with hs'
    rcases List.mem_append.mp hs' with hs' | hs'
    · exact le_trans (min_le_left _ _) (hmin s hs')
    · simp at hs'
      subst hs'
      exact min_le_right _ _
  · rcases le_total g.start r.start with hle | hle
    · refine ⟨rmin, mem_sortRegions.mpr (List.mem_append.mpr (Or.inl hrmin)), ?_⟩
      simp [hrminEq, min_eq_left hle]
    · refine ⟨r, mem_sortRegions.mpr (List.mem_append.mpr (Or.inr (by simp))), ?_⟩
      simp [min_eq_right hle]
  · intro s hs
    rcases mem_sortRegions.mp hs with hs'
    rcases List.mem_append.mp hs' with hs' | hs'
    · exact le_trans (hmax s hs') (le_max_left _ _)
    · simp at hs'
      subst hs'
      exact le_max_right _ _
  · rcases le_total r.stop g.stop with hle | hle
    · refine ⟨rmax, mem_sortRegions.mpr (List.mem_append.mpr (Or.inl hrmax)), ?_⟩
      simp [hrmaxEq, max_eq_left hle]
    · refine ⟨r, mem_sortRegions.mpr (List.mem_append.mpr (Or.inr (by simp))), ?_⟩
      simp [max_eq_right hle]
  · exact pairwise_sortRegions _
  · intro s hs
    rcases mem_sortRegions.mp hs with hs'
    rcases List.mem_append.mp hs' with hs' | hs'
    · exact hchr s hs'
    · simp at hs'
      subst hs'
      exact h

theorem groupInv_addRegions {rs : List Region} :
    ∀ {g : RegionGroup}, groupInv g → (∀ r ∈ rs, r.chrom = g.chrom) →
      ∃ g2, addRegions g rs = Except.ok g2 ∧ groupInv g2 ∧ g2.chrom = g.chrom := by
  induction rs with
  | nil => exact fun hinv _ => ⟨_, rfl, hinv, rfl⟩
  | cons r rs ih =>
    intro g hinv hchr
    obtain ⟨g2, hok, hinv2, hchr2⟩ :=
      groupInv_add_region hinv (hchr r (by simp))
    obtain ⟨g3, hok3, hinv3, hchr3⟩ :=
      ih hinv2 (fun s hs => (hchr s (by simp [hs])).trans hchr2.symm)
    refine ⟨g3, ?_, hinv3, hchr3.trans hchr2⟩
    simp [addRegions, hok, hok3]

/-- A typed BAM tag value: `Z` (string) and `I` (integer) tags, the two kinds
used by bam_processor.cpp. -/
inductive TagValue where
  | z (s : String)
  | i (n : Int)
deriving DecidableEq

/-- One BAM alignment record, as consumed by the filter cascade. Fields mirror
the BamTools accessors used in bam_processor.cpp. `tags` models the named-tag
capability of a record (at most one tag per name, looked up by name).
`GetEndPosition` is the precomputed result of
`BamAlignment::GetEndPosition()`. `GetEndDistToIndel`, `HasLargestEndMatches`
and `GetNumEndMatches` are the precomputed results, for this record, of the
external `AlignmentFilters` helpers declared in alignment_filters.h (outside
this fragment); the cascade only branches on these results. -/
structure BamAlignment where
  RefID : Int
  MateRefID : Int
  Position : Int
  GetEndPosition : Int
  InsertSize : Int
  Filename : String
  tags : String → Option TagValue
  GetEndDistToIndel : Int × Int
  HasLargestEndMatches : Bool
  GetNumEndMatches : Int × Int

/-- `BamAlignment::HasTag`. -/
def HasTag (a : BamAlignment) (name : String) : Bool :=
  (a.tags name).isSome

/-- The filter thresholds used by `BamProcessor::read_and_filter_reads`
(`MAX_MATE_DIST`, `REMOVE_MULTIMAPPERS`, `MIN_FLANK`, `MIN_BP_BEFORE_INDEL`,
`MAXIMAL_END_MATCH_WINDOW`, `MIN_READ_END_MATCH`). -/
structure FilterConfig where
  MAX_MATE_DIST : Int
  REMOVE_MULTIMAPPERS : Bool
  MIN_FLANK : Int
  MIN_BP_BEFORE_INDEL : Int
  MAXIMAL_END_MATCH_WINDOW : Int
  MIN_READ_END_MATCH : Int

/-- The failure reasons counted by the cascade, in evaluation order. -/
inductive FilterReason where
  | diff_chrom_mate
  | unmapped_mate
  | not_spanning
  | insert_size
  | multimapped
  | flank_len
  | bp_before_indel
  | end_match_window
  | num_end_matches
deriving DecidableEq, Fintype

/-- The decision taken by one iteration of the read loop of
`BamProcessor::read_and_filter_reads` (bam_processor.cpp lines 20-78):
`some reason` when the read is rejected by the cascade, `none` when it is
pushed onto `region_alignments`. Conditions are transcribed stage by stage
from the source. -/
def classify (cfg : FilterConfig) (reg : Region) (a : BamAlignment) :
    Option FilterReason :=
  if a.RefID ≠ a.MateRefID then some FilterReason.diff_chrom_mate
  else if a.InsertSize = 0 then some FilterReason.unmapped_mate
  else if a.Position > reg.start ∨ a.GetEndPosition < reg.stop then
    some FilterReason.not_spanning
  else if |a.InsertSize| > cfg.MAX_MATE_DIST then some FilterReason.insert_size
  else if cfg.REMOVE_MULTIMAPPERS ∧ HasTag a "XA" then
    some FilterReason.multimapped
  else if a.Position > reg.start - cfg.MIN_FLANK ∨
      a.GetEndPosition < reg.stop + cfg.MIN_FLANK then
    some FilterReason.flank_len
  else if cfg.MIN_BP_BEFORE_INDEL > 0 ∧
      ((a.GetEndDistToIndel.1 ≠ -1 ∧ a.GetEndDistToIndel.1 < cfg.MIN_BP_BEFORE_INDEL) ∨
       (a.GetEndDistToIndel.2 ≠ -1 ∧ a.GetEndDistToIndel.2 < cfg.MIN_BP_BEFORE_INDEL)) then
    some FilterReason.bp_before_indel
  else if cfg.MAXIMAL_END_MATCH_WINDOW > 0 ∧ ¬ a.HasLargestEndMatches then
    some FilterReason.end_match_window
  else if cfg.MIN_READ_END_MATCH > 0 ∧
      (a.GetNumEndMatches.1 < cfg.MIN_READ_END_MATCH ∨
       a.GetNumEndMatches.2 < cfg.MIN_READ_END_MATCH) then
    some FilterReason.num_end_matches
  else none

/-- The loop state of `BamProcessor::read_and_filter_reads`: the read count,
the nine per-failure-reason counters, and the surviving set. -/
structure ScanState where
  read_count : Nat
  diff_chrom_mate : Nat
  unmapped_mate : Nat
  not_spanning : Nat
  insert_size : Nat
  multimapped : Nat
  flank_len : Nat
  bp_before_indel : Nat
  end_match_window : Nat
  num_end_matches : Nat
  region_alignments : List BamAlignment

def initScanState : ScanState :=
  ⟨0, 0, 0, 0, 0, 0, 0, 0, 0, 0, []⟩

/-- One iteration of the read loop of `BamProcessor::read_and_filter_reads`,
transcribed from bam_processor.cpp lines 20-78. -/
def readStep (cfg : FilterConfig) (reg : Region) (st : ScanState)
    (a : BamAlignment) : ScanState :=
  let st := { st with read_count := st.read_count + 1 }
  if a.RefID ≠ a.MateRefID then
    { st with diff_chrom_mate := st.diff_chrom_mate + 1 }
  else if a.InsertSize = 0 then
    { st with unmapped_mate := st.unmapped_mate + 1 }
  else if a.Position > reg.start ∨ a.GetEndPosition < reg.stop then
    { st with not_spanning := st.not_spanning + 1 }
  else if |a.InsertSize| > cfg.MAX_MATE_DIST then
    { st with insert_size := st.insert_size + 1 }
  else if cfg.REMOVE_MULTIMAPPERS ∧ HasTag a "XA" then
    { st with multimapped := st.multimapped + 1 }
  else if a.Position > reg.start - cfg.MIN_FLANK ∨
      a.GetEndPosition < reg.stop + cfg.MIN_FLANK then
    { st with flank_len := st.flank_len + 1 }
  else if cfg.MIN_BP_BEFORE_INDEL > 0 ∧
      ((a.GetEndDistToIndel.1 ≠ -1 ∧ a.GetEndDistToIndel.1 < cfg.MIN_BP_BEFORE_INDEL) ∨
       (a.GetEndDistToIndel.2 ≠ -1 ∧ a.GetEndDistToIndel.2 < cfg.MIN_BP_BEFORE_INDEL)) then
    { st with bp_before_indel := st.bp_before_indel + 1 }
  else if cfg.MAXIMAL_END_MATCH_WINDOW > 0 ∧ ¬ a.HasLargestEndMatches then
    { st with end_match_window := st.end_match_window + 1 }
  else if cfg.MIN_READ_END_MATCH > 0 ∧
      (a.GetNumEndMatches.1 < cfg.MIN_READ_END_MATCH ∨
       a.GetNumEndMatches.2 < cfg.MIN_READ_END_MATCH) then
    { st with num_end_matches := st.num_end_matches + 1 }
  else
    { st with region_alignments := st.region_alignments ++ [a] }

/-- The read-and-filter loop of `BamProcessor::read_and_filter_reads` over a
stream of alignment records. -/
def read_and_filter_reads (cfg : FilterConfig) (reg : Region)
    (stream : List BamAlignment) : ScanState :=
  stream.foldl (readStep cfg reg) initScanState

/-- `readStep` dispatches on the cascade classification: it increments the
read count, then either increments the counter matching the classification or
appends the read to the surviving set. -/
theorem readStep_eq (cfg : FilterConfig) (reg : Region) (st : ScanState)
    (a : BamAlignment) :
    readStep cfg reg st a =
      match classify cfg reg a with
      | some FilterReason.diff_chrom_mate =>
        { st with read_count := st.read_count + 1,
                  diff_chrom_mate := st.diff_chrom_mate + 1 }
      | some FilterReason.unmapped_mate =>
        { st with read_count := st.read_count + 1,
                  unmapped_mate := st.unmapped_mate + 1 }
      | some FilterReason.not_spanning =>
        { st with read_count := st.read_count + 1,
                  not_spanning := st.not_spanning + 1 }
      | some FilterReason.insert_size =>
        { st with read_count := st.read_count + 1,
                  insert_size := st.insert_size + 1 }
      | some FilterReason.multimapped =>
        { st with read_count := st.read_count + 1,
                  multimapped := st.multimapped + 1 }
      | some FilterReason.flank_len =>
        { st with read_count := st.read_count + 1,
                  flank_len := st.flank_len + 1 }
      | some FilterReason.bp_before_indel =>
        { st with read_count := st.read_count + 1,
                  bp_before_indel := st.bp_before_indel + 1 }
      | some FilterReason.end_match_window =>
        { st with read_count := st.read_count + 1,
                  end_match_window := st.end_match_window + 1 }
      | some FilterReason.num_end_matches =>
        { st with read_count := st.read_count + 1,
                  num_end_matches := st.num_end_matches + 1 }
      | none =>
        { st with read_count := st.read_count + 1,
                  region_alignments := st.region_alignments ++ [a] } := by
  unfold readStep classify
  by_cases h1 : a.RefID ≠ a.MateRefID
  · simp [h1]
  by_cases h2 : a.InsertSize = 0
  · simp [h1, h2]
  by_cases h3 : a.Position > reg.start ∨ a.GetEndPosition < reg.stop
  · simp [h1, h2, h3]
  by_cases h4 : |a.InsertSize| > cfg.MAX_MATE_DIST
  · simp [h1, h2, h3, h4]
  by_cases h5 : cfg.REMOVE_MULTIMAPPERS ∧ HasTag a "XA"
  · simp [h1, h2, h3, h4, h5]
  by_cases h6 : a.Position > reg.start - cfg.MIN_FLANK ∨
      a.GetEndPosition < reg.stop + cfg.MIN_FLANK
  · simp [h1, h2, h3, h4, h5, h6]
  by_cases h7 : cfg.MIN_BP_BEFORE_INDEL > 0 ∧
      ((a.GetEndDistToIndel.1 ≠ -1 ∧ a.GetEndDistToIndel.1 < cfg.MIN_BP_BEFORE_INDEL) ∨
       (a.GetEndDistToIndel.2 ≠ -1 ∧ a.GetEndDistToIndel.2 < cfg.MIN_BP_BEFORE_INDEL))
  · simp [h1, h2, h3, h4, h5, h6, h7]
  by_cases h8 : 0 < cfg.MAXIMAL_END_MATCH_WINDOW ∧ a.HasLargestEndMatches = false
  · simp [h1, h2, h3, h4, h5, h6, h7, h8]
  by_cases h9 : cfg.MIN_READ_END_MATCH > 0 ∧
      (a.GetNumEndMatches.1 < cfg.MIN_READ_END_MATCH ∨
       a.GetNumEndMatches.2 < cfg.MIN_READ_END_MATCH)
  · simp [h1, h2, h3, h4, h5, h6, h7, h8, h9]
  · simp [h1, h2, h3, h4, h5, h6, h7, h8, h9]

theorem readStep_region_alignments (cfg : FilterConfig) (reg : Region)
    (st : ScanState) (a : BamAlignment) :
    (readStep cfg reg st a).region_alignments =
      if (classify cfg reg a).isNone then st.region_alignments ++ [a]
      else st.region_alignments := by
  rw [readStep_eq]
  cases h : classify cfg reg a with
  | none => simp
  | some reason => cases reason <;> simp

theorem foldl_region_alignments (cfg : FilterConfig) (reg : Region) :
    ∀ (stream : List BamAlignment) (st : ScanState),
      (stream.foldl (readStep cfg reg) st).region_alignments =
        st.region_alignments ++
          stream.filter (fun a => (classify cfg reg a).isNone) := by
  intro stream
  induction stream with
  | nil => intro st; simp
  | cons a rest ih =>
    intro st
    rw [List.foldl_cons, ih, List.filter_cons]
    by_cases h : (classify cfg reg a).isNone
    · rw [readStep_region_alignments, if_pos h]
      simp [h]
    · rw [readStep_region_alignments, if_neg h]
      simp [h]

/-- The surviving set for a region: the contents of `region_alignments` after
the read loop. -/
def surviving (cfg : FilterConfig) (reg : Region)
    (stream : List BamAlignment) : List BamAlignment :=
  (read_and_filter_reads cfg reg stream).region_alignments

theorem surviving_eq_filter (cfg : FilterConfig) (reg : Region)
    (stream : List BamAlignment) :
    surviving cfg reg stream =
      stream.filter (fun a => (classify cfg reg a).isNone) := by
  unfold surviving read_and_filter_reads
  rw [foldl_region_alignments]
  simp [initScanState]

/-- The conjunction of the nine cascade predicates (as configured), stated
independently of the evaluation order: same-chromosome mate, mapped mate,
spans the region, insert size within bound, no multimapper tag when rejection
is enabled, sufficient flank on both sides, each end far enough from the
nearest indel (or no indel found), unique longest end match within the
configured window, and sufficient perfect end matches. -/
def passes (cfg : FilterConfig) (reg : Region) (a : BamAlignment) : Prop :=
  a.RefID = a.MateRefID ∧
  a.InsertSize ≠ 0 ∧
  (a.Position ≤ reg.start ∧ reg.stop ≤ a.GetEndPosition) ∧
  |a.InsertSize| ≤ cfg.MAX_MATE_DIST ∧
  (cfg.REMOVE_MULTIMAPPERS = true → HasTag a "XA" = false) ∧
  (a.Position ≤ reg.start - cfg.MIN_FLANK ∧
    reg.stop + cfg.MIN_FLANK ≤ a.GetEndPosition) ∧
  (cfg.MIN_BP_BEFORE_INDEL > 0 →
    (a.GetEndDistToIndel.1 = -1 ∨ cfg.MIN_BP_BEFORE_INDEL ≤ a.GetEndDistToIndel.1) ∧
    (a.GetEndDistToIndel.2 = -1 ∨ cfg.MIN_BP_BEFORE_INDEL ≤ a.GetEndDistToIndel.2)) ∧
  (cfg.MAXIMAL_END_MATCH_WINDOW > 0 → a.HasLargestEndMatches = true) ∧
  (cfg.MIN_READ_END_MATCH > 0 →
    cfg.MIN_READ_END_MATCH ≤ a.GetNumEndMatches.1 ∧
    cfg.MIN_READ_END_MATCH ≤ a.GetNumEndMatches.2)

theorem classify_eq_none_iff (cfg : FilterConfig) (reg : Region)
    (a : BamAlignment) :
    classify cfg reg a = none ↔ passes cfg reg a := by
  unfold classify passes
  split_ifs with h1 h2 h3 h4 h5 h6 h7 h8 h9
  · simp only [reduceCtorEq, false_iff]
    rintro ⟨p1, _⟩
    exact h1 p1
  · simp only [reduceCtorEq, false_iff]
    rintro ⟨_, p2, _⟩
    exact p2 h2
  · simp only [reduceCtorEq, false_iff]
    rintro ⟨_, _, ⟨p3a, p3b⟩, _⟩
    omega
  · simp only [reduceCtorEq, false_iff]
    rintro ⟨_, _, _, p4, _⟩
    exact absurd p4 (not_le.mpr h4)
  · simp only [reduceCtorEq, false_iff]
    rintro ⟨_, _, _, _, p5, _⟩
    rw [p5 h5.1] at h5
    exact Bool.false_ne_true h5.2
  · simp only [reduceCtorEq, false_iff]
    rintro ⟨_, _, _, _, _, ⟨p6a, p6b⟩, _⟩
    omega
  · simp only [reduceCtorEq, false_iff]
    rintro ⟨_, _, _, _, _, _, p7, _⟩
    obtain ⟨hm, hd⟩ := h7
    have hp := p7 hm
    omega
  · simp only [reduceCtorEq, false_iff]
    rintro ⟨_, _, _, _, _, _, _, p8, _⟩
    obtain ⟨hw, hb⟩ := h8
    exact hb (p8 hw)
  · simp only [reduceCtorEq, false_iff]
    rintro ⟨_, _, _, _, _, _, _, _, p9⟩
    obtain ⟨hm, hd⟩ := h9
    have hp := p9 hm
    omega
  · simp only [true_iff]
    push_neg at h1 h2 h3 h4 h5 h6 h7 h8 h9
    refine ⟨h1, h2, ⟨h3.1, h3.2⟩, h4, ?_, ⟨h6.1, h6.2⟩, ?_, ?_, ?_⟩
    · intro hr
      have := h5 hr
      simpa using this
    · intro hm
      have := h7 hm
      constructor <;> omega
    · intro hw
      have := h8 hw
      simpa using this
    · intro hm
      have := h9 hm
      omega

/-- **C1.** Every alignment record placed in a region's surviving set
satisfies every enabled cascade predicate, and the pass outcome of the
cascade is equivalent to the conjunction of all enabled predicates. -/
theorem cascade_pass_iff_conjunction (cfg : FilterConfig) (reg : Region)
    (stream : List BamAlignment) (a : BamAlignment) :
    (a ∈ surviving cfg reg stream → passes cfg reg a) ∧
    (classify cfg reg a = none ↔ passes cfg reg a) := by
  refine ⟨fun hmem => ?_, classify_eq_none_iff cfg reg a⟩
  rw [surviving_eq_filter] at hmem
  have h := List.of_mem_filter hmem
  rw [Option.isNone_iff_eq_none] at h
  exact (classify_eq_none_iff cfg reg a).mp h

/-- A filter configuration with all optional thresholds inert. -/
def cfg0 : FilterConfig :=
  { MAX_MATE_DIST := 1000, REMOVE_MULTIMAPPERS := false, MIN_FLANK := 0,
    MIN_BP_BEFORE_INDEL := 0, MAXIMAL_END_MATCH_WINDOW := 0,
    MIN_READ_END_MATCH := 0 }

/-- The region [100,200) on chr1 used by the concrete scenarios. -/
def reg0 : Region :=
  { chrom := "chr1", start := 100, stop := 200, period := 4, name := "" }

/-- A record spanning [90,210) with a mapped same-chromosome mate. -/
def a0 : BamAlignment :=
  { RefID := 0, MateRefID := 0, Position := 90, GetEndPosition := 210,
    InsertSize := 300, Filename := "run1.bam", tags := fun _ => none,
    GetEndDistToIndel := (-1, -1), HasLargestEndMatches := true,
    GetNumEndMatches := (10, 10) }

theorem cascade_pass_iff_conjunction_witness : passes cfg0 reg0 a0 :=
  (cascade_pass_iff_conjunction cfg0 reg0 [a0] a0).1 (by
    rw [surviving_eq_filter]
    simp [show classify cfg0 reg0 a0 = none from by decide])

/-- The per-stage rejection condition of the cascade, read off stage by stage
from bam_processor.cpp lines 24-76: `failsPred cfg reg a reason` holds iff
the stage counted by `reason` would reject the record `a`. -/
def failsPred (cfg : FilterConfig) (reg : Region) (a : BamAlignment) :
    FilterReason → Prop
  | FilterReason.diff_chrom_mate => a.RefID ≠ a.MateRefID
  | FilterReason.unmapped_mate => a.InsertSize = 0
  | FilterReason.not_spanning =>
      a.Position > reg.start ∨ a.GetEndPosition < reg.stop
  | FilterReason.insert_size => |a.InsertSize| > cfg.MAX_MATE_DIST
  | FilterReason.multimapped =>
      cfg.REMOVE_MULTIMAPPERS ∧ HasTag a "XA"
  | FilterReason.flank_len =>
      a.Position > reg.start - cfg.MIN_FLANK ∨
        a.GetEndPosition < reg.stop + cfg.MIN_FLANK
  | FilterReason.bp_before_indel =>
      cfg.MIN_BP_BEFORE_INDEL > 0 ∧
        ((a.GetEndDistToIndel.1 ≠ -1 ∧ a.GetEndDistToIndel.1 < cfg.MIN_BP_BEFORE_INDEL) ∨
         (a.GetEndDistToIndel.2 ≠ -1 ∧ a.GetEndDistToIndel.2 < cfg.MIN_BP_BEFORE_INDEL))
  | FilterReason.end_match_window =>
      cfg.MAXIMAL_END_MATCH_WINDOW > 0 ∧ ¬ a.HasLargestEndMatches
  | FilterReason.num_end_matches =>
      cfg.MIN_READ_END_MATCH > 0 ∧
        (a.GetNumEndMatches.1 < cfg.MIN_READ_END_MATCH ∨
         a.GetNumEndMatches.2 < cfg.MIN_READ_END_MATCH)

instance (cfg : FilterConfig) (reg : Region) (a : BamAlignment)
    (reason : FilterReason) : Decidable (failsPred cfg reg a reason) := by
  cases reason <;> (unfold failsPred; infer_instance)

/-- Position of each failure reason in the fixed evaluation order. -/
def reasonIndex : FilterReason → Nat
  | FilterReason.diff_chrom_mate => 0
  | FilterReason.unmapped_mate => 1
  | FilterReason.not_spanning => 2
  | FilterReason.insert_size => 3
  | FilterReason.multimapped => 4
  | FilterReason.flank_len => 5
  | FilterReason.bp_before_indel => 6
  | FilterReason.end_match_window => 7
  | FilterReason.num_end_matches => 8

/-- **C2.** When the cascade rejects a record, the attributed reason is the
first failing stage in the fixed evaluation order; in particular a record
failing exactly the non-spanning and indel-too-close stages is attributed to
non-spanning. -/
theorem cascade_attribution_first_failure (cfg : FilterConfig) (reg : Region)
    (a : BamAlignment) :
    (∀ reason, classify cfg reg a = some reason →
      failsPred cfg reg a reason ∧
        ∀ r2, reasonIndex r2 < reasonIndex reason → ¬ failsPred cfg reg a r2) ∧
    (failsPred cfg reg a FilterReason.not_spanning →
      failsPred cfg reg a FilterReason.bp_before_indel →
      (∀ r2, r2 ≠ FilterReason.not_spanning → r2 ≠ FilterReason.bp_before_indel →
        ¬ failsPred cfg reg a r2) →
      classify cfg reg a = some FilterReason.not_spanning) := by
  constructor
  · intro reason hr
    unfold classify at hr
    by_cases h1 : a.RefID ≠ a.MateRefID
    · rw [if_pos h1] at hr
      injection hr with hr
      subst hr
      refine ⟨h1, ?_⟩
      intro r2 hlt
      cases r2 <;> simp [reasonIndex] at hlt
    rw [if_neg h1] at hr
    by_cases h2 : a.InsertSize = 0
    · rw [if_pos h2] at hr
      injection hr with hr
      subst hr
      refine ⟨h2, ?_⟩
      intro r2 hlt
      cases r2 <;> simp [reasonIndex] at hlt
      exact h1
    rw [if_neg h2] at hr
    by_cases h3 : a.Position > reg.start ∨ a.GetEndPosition < reg.stop
    · rw [if_pos h3] at hr
      injection hr with hr
      subst hr
      refine ⟨h3, ?_⟩
      intro r2 hlt
      cases r2 <;> simp [reasonIndex] at hlt
      exacts [h1, h2]
    rw [if_neg h3] at hr
    by_cases h4 : |a.InsertSize| > cfg.MAX_MATE_DIST
    · rw [if_pos h4] at hr
      injection hr with hr
      subst hr
      refine ⟨h4, ?_⟩
      intro r2 hlt
      cases r2 <;> simp [reasonIndex] at hlt
      exacts [h1, h2, h3]
    rw [if_neg h4] at hr
    by_cases h5 : cfg.REMOVE_MULTIMAPPERS ∧ HasTag a "XA"
    · rw [if_pos h5] at hr
      injection hr with hr
      subst hr
      refine ⟨h5, ?_⟩
      intro r2 hlt
      cases r2 <;> simp [reasonIndex] at hlt
      exacts [h1, h2, h3, h4]
    rw [if_neg h5] at hr
    by_cases h6 : a.Position > reg.start - cfg.MIN_FLANK ∨
        a.GetEndPosition < reg.stop + cfg.MIN_FLANK
    · rw [if_pos h6] at hr
      injection hr with hr
      subst hr
      refine ⟨h6, ?_⟩
      intro r2 hlt
      cases r2 <;> simp [reasonIndex] at hlt
      exacts [h1, h2, h3, h4, h5]
    rw [if_neg h6] at hr
    by_cases h7 : cfg.MIN_BP_BEFORE_INDEL > 0 ∧
        ((a.GetEndDistToIndel.1 ≠ -1 ∧ a.GetEndDistToIndel.1 < cfg.MIN_BP_BEFORE_INDEL) ∨
         (a.GetEndDistToIndel.2 ≠ -1 ∧ a.GetEndDistToIndel.2 < cfg.MIN_BP_BEFORE_INDEL))
    · rw [if_pos h7] at hr
      injection hr with hr
      subst hr
      refine ⟨h7, ?_⟩
      intro r2 hlt
      cases r2 <;> simp [reasonIndex] at hlt
      exacts [h1, h2, h3, h4, h5, h6]
    rw [if_neg h7] at hr
    by_cases h8 : cfg.MAXIMAL_END_MATCH_WINDOW > 0 ∧ ¬ a.HasLargestEndMatches
    · rw [if_pos h8] at hr
      injection hr with hr
      subst hr
      refine ⟨h8, ?_⟩
      intro r2 hlt
      cases r2 <;> simp [reasonIndex] at hlt
      exacts [h1, h2, h3, h4, h5, h6, h7]
    rw [if_neg h8] at hr
    by_cases h9 : cfg.MIN_READ_END_MATCH > 0 ∧
        (a.GetNumEndMatches.1 < cfg.MIN_READ_END_MATCH ∨
         a.GetNumEndMatches.2 < cfg.MIN_READ_END_MATCH)
    · rw [if_pos h9] at hr
      injection hr with hr
      subst hr
      refine ⟨h9, ?_⟩
      intro r2 hlt
      cases r2 <;> simp [reasonIndex] at hlt
      exacts [h1, h2, h3, h4, h5, h6, h7, h8]
    rw [if_neg h9] at hr
    exact Option.noConfusion hr
  · intro hns hbp hother
    have h1 : ¬ (a.RefID ≠ a.MateRefID) :=
      hother FilterReason.diff_chrom_mate (by decide) (by decide)
    have h2 : ¬ (a.InsertSize = 0) :=
      hother FilterReason.unmapped_mate (by decide) (by decide)
    have hns' : a.Position > reg.start ∨ a.GetEndPosition < reg.stop := hns
    unfold classify
    rw [if_neg h1, if_neg h2, if_pos hns']

/-- A configuration enabling the indel filter; its negative minimum flank
makes the flank stage weaker than the spanning stage, so a record can fail
exactly the spanning and indel stages. -/
def cfg2 : FilterConfig :=
  { MAX_MATE_DIST := 1000, REMOVE_MULTIMAPPERS := false, MIN_FLANK := -10,
    MIN_BP_BEFORE_INDEL := 3, MAXIMAL_END_MATCH_WINDOW := 0,
    MIN_READ_END_MATCH := 0 }

/-- A record failing exactly the non-spanning and indel-too-close stages of
`cfg2` on `reg0`. -/
def a2 : BamAlignment :=
  { RefID := 0, MateRefID := 0, Position := 105, GetEndPosition := 210,
    InsertSize := 300, Filename := "run1.bam", tags := fun _ => none,
    GetEndDistToIndel := (1, 1), HasLargestEndMatches := true,
    GetNumEndMatches := (10, 10) }

theorem cascade_attribution_first_failure_witness :
    classify cfg2 reg0 a2 = some FilterReason.not_spanning :=
  (cascade_attribution_first_failure cfg2 reg0 a2).2 (by decide) (by decide)
    (by decide)

/-- The same cascade with the insufficient-flank stage removed: the
comparison program for the refinement claim that a minimum flank length of 0
disables the flank check. -/
def classifyNoFlank (cfg : FilterConfig) (reg : Region) (a : BamAlignment) :
    Option FilterReason :=
  if a.RefID ≠ a.MateRefID then some FilterReason.diff_chrom_mate
  else if a.InsertSize = 0 then some FilterReason.unmapped_mate
  else if a.Position > reg.start ∨ a.GetEndPosition < reg.stop then
    some FilterReason.not_spanning
  else if |a.InsertSize| > cfg.MAX_MATE_DIST then some FilterReason.insert_size
  else if cfg.REMOVE_MULTIMAPPERS ∧ HasTag a "XA" then
    some FilterReason.multimapped
  else if cfg.MIN_BP_BEFORE_INDEL > 0 ∧
      ((a.GetEndDistToIndel.1 ≠ -1 ∧ a.GetEndDistToIndel.1 < cfg.MIN_BP_BEFORE_INDEL) ∨
       (a.GetEndDistToIndel.2 ≠ -1 ∧ a.GetEndDistToIndel.2 < cfg.MIN_BP_BEFORE_INDEL)) then
    some FilterReason.bp_before_indel
  else if cfg.MAXIMAL_END_MATCH_WINDOW > 0 ∧ ¬ a.HasLargestEndMatches then
    some FilterReason.end_match_window
  else if cfg.MIN_READ_END_MATCH > 0 ∧
      (a.GetNumEndMatches.1 < cfg.MIN_READ_END_MATCH ∨
       a.GetNumEndMatches.2 < cfg.MIN_READ_END_MATCH) then
    some FilterReason.num_end_matches
  else none

theorem classify_minFlank_zero (cfg : FilterConfig) (reg : Region)
    (a : BamAlignment) (h : cfg.MIN_FLANK = 0) :
    classify cfg reg a = classifyNoFlank cfg reg a := by
  unfold classify classifyNoFlank
  simp only [h, sub_zero, add_zero]
  split_ifs <;> rfl

/-- **C5.** With minimum flank length 0 the flank check is inert: the
surviving set of the cascade equals the surviving set of the cascade with the
insufficient-flank stage removed, for every region and input stream. -/
theorem min_flank_zero_cascade_equiv (cfg : FilterConfig)
    (h : cfg.MIN_FLANK = 0) (reg : Region) (stream : List BamAlignment) :
    surviving cfg reg stream =
      stream.filter (fun a => (classifyNoFlank cfg reg a).isNone) := by
  rw [surviving_eq_filter]
  have hf : (fun a => (classify cfg reg a).isNone) =
      (fun a => (classifyNoFlank cfg reg a).isNone) := by
    funext a
    rw [classify_minFlank_zero cfg reg a h]
  rw [hf]

theorem min_flank_zero_cascade_equiv_witness :
    surviving cfg0 reg0 [a0, a2] =
      [a0, a2].filter (fun a => (classifyNoFlank cfg0 reg0 a).isNone) :=
  min_flank_zero_cascade_equiv cfg0 rfl reg0 [a0, a2]

/-- The configuration of spec Scenario C: minimum flank length 5, all other
optional filters inert. -/
def cfg9 : FilterConfig :=
  { MAX_MATE_DIST := 1000, REMOVE_MULTIMAPPERS := false, MIN_FLANK := 5,
    MIN_BP_BEFORE_INDEL := 0, MAXIMAL_END_MATCH_WINDOW := 0,
    MIN_READ_END_MATCH := 0 }

/-- The alignment of spec Scenario C: spans [97,203). -/
def a9 : BamAlignment :=
  { RefID := 0, MateRefID := 0, Position := 97, GetEndPosition := 203,
    InsertSize := 300, Filename := "run1.bam", tags := fun _ => none,
    GetEndDistToIndel := (-1, -1), HasLargestEndMatches := true,
    GetNumEndMatches := (10, 10) }

/-- **C9.** Scenario C: with region [100,200) and minimum flank 5, an
alignment spanning [97,203) that passes the mate-chromosome, unmapped-mate,
spanning, insert-size and multimapper checks is rejected with reason
insufficient flank, and never enters the surviving set. -/
theorem scenario_c_flank_exclusion (cfg : FilterConfig) (reg : Region)
    (a : BamAlignment)
    (hflank : cfg.MIN_FLANK = 5) (hstart : reg.start = 100)
    (hstop : reg.stop = 200) (hpos : a.Position = 97)
    (hend : a.GetEndPosition = 203) (hmate : a.RefID = a.MateRefID)
    (hins : a.InsertSize ≠ 0) (hdist : |a.InsertSize| ≤ cfg.MAX_MATE_DIST)
    (hmm : cfg.REMOVE_MULTIMAPPERS = true → HasTag a "XA" = false) :
    classify cfg reg a = some FilterReason.flank_len ∧
    ∀ stream, a ∉ surviving cfg reg stream := by
  have hcl : classify cfg reg a = some FilterReason.flank_len := by
    unfold classify
    rw [if_neg (by simp [hmate])]
    rw [if_neg hins]
    rw [if_neg (by omega)]
    rw [if_neg (not_lt.mpr hdist)]
    rw [if_neg (by rintro ⟨hr, ht⟩; rw [hmm hr] at ht; exact Bool.false_ne_true ht)]
    rw [if_pos (by omega)]
  refine ⟨hcl, fun stream hmem => ?_⟩
  rw [surviving_eq_filter] at hmem
  have h := List.of_mem_filter hmem
  rw [hcl] at h
  simp at h

theorem scenario_c_flank_exclusion_witness :
    classify cfg9 reg0 a9 = some FilterReason.flank_len ∧
    ∀ stream, a9 ∉ surviving cfg9 reg0 stream :=
  scenario_c_flank_exclusion cfg9 reg0 a9 rfl rfl rfl rfl rfl rfl
    (by decide) (by decide) (by decide)

/-- The sum of the nine per-failure-reason counters. -/
def countSum (st : ScanState) : Nat :=
  st.diff_chrom_mate + st.unmapped_mate + st.not_spanning + st.insert_size +
  st.multimapped + st.flank_len + st.bp_before_indel + st.end_match_window +
  st.num_end_matches

theorem readStep_read_count (cfg : FilterConfig) (reg : Region)
    (st : ScanState) (a : BamAlignment) :
    (readStep cfg reg st a).read_count = st.read_count + 1 := by
  rw [readStep_eq]
  cases h : classify cfg reg a with
  | none => rfl
  | some reason => cases reason <;> rfl

theorem readStep_countSum (cfg : FilterConfig) (reg : Region)
    (st : ScanState) (a : BamAlignment) :
    countSum (readStep cfg reg st a) +
        (readStep cfg reg st a).region_alignments.length =
      countSum st + st.region_alignments.length + 1 := by
  rw [readStep_eq]
  cases h : classify cfg reg a with
  | none => simp [countSum]; omega
  | some reason => cases reason <;> simp [countSum] <;> omega

theorem foldl_counts (cfg : FilterConfig) (reg : Region) :
    ∀ (stream : List BamAlignment) (st : ScanState),
      (stream.foldl (readStep cfg reg) st).read_count =
          st.read_count + stream.length ∧
      countSum (stream.foldl (readStep cfg reg) st) +
          (stream.foldl (readStep cfg reg) st).region_alignments.length =
        countSum st + st.region_alignments.length + stream.length := by
  intro stream
  induction stream with
  | nil => intro st; simp
  | cons a rest ih =>
    intro st
    rw [List.foldl_cons]
    obtain ⟨ihc, ihs⟩ := ih (readStep cfg reg st a)
    have hc := readStep_read_count cfg reg st a
    have hs := readStep_countSum cfg reg st a
    constructor
    · rw [ihc, hc]
      simp only [List.length_cons]
      omega
    · rw [ihs]
      simp only [List.length_cons]
      omega

/-- **C10.** Each record read is counted under exactly one outcome: the total
number of records read by one invocation equals the sum of the nine
per-failure-reason counters plus the size of the surviving set. -/
theorem read_count_partition (cfg : FilterConfig) (reg : Region)
    (stream : List BamAlignment) :
    (read_and_filter_reads cfg reg stream).read_count = stream.length ∧
    (read_and_filter_reads cfg reg stream).read_count =
      countSum (read_and_filter_reads cfg reg stream) +
        (read_and_filter_reads cfg reg stream).region_alignments.length := by
  obtain ⟨h1, h2⟩ := foldl_counts cfg reg stream initScanState
  unfold read_and_filter_reads
  have e1 : countSum initScanState = 0 := rfl
  have e2 : initScanState.region_alignments.length = 0 := rfl
  have e3 : initScanState.read_count = 0 := rfl
  constructor
  · omega
  · omega

/-- Modelled from the spec: the external named-tag mutate capability of an
alignment record (BamTools `BamAlignment::AddTag`): adding fails iff a
same-named tag is already present, leaving the record unchanged. -/
def AddTag (a : BamAlignment) (name : String) (v : TagValue) :
    Option BamAlignment :=
  if HasTag a name then none
  else some { a with tags := fun m => if m = name then some v else a.tags m }

/-- Modelled from the spec: `BamAlignment::RemoveTag`: removing fails iff no
same-named tag is present. -/
def RemoveTag (a : BamAlignment) (name : String) : Option BamAlignment :=
  if HasTag a name then
    some { a with tags := fun m => if m = name then none else a.tags m }
  else none

/-- Modelled from the spec: `BamAlignment::EditTag`: remove any same-named
tag, then add; on the tag-map view this sets the binding. -/
def EditTag (a : BamAlignment) (name : String) (v : TagValue) :
    Option BamAlignment :=
  some { a with tags := fun m => if m = name then some v else a.tags m }

/-- The per-record annotation step of the optional BAM output
(bam_processor.cpp lines 94-107, before the write): the RG add whose result
the code discards is modelled with `Option.getD`, keeping the prior record on
failure; the checked XS add and XE edit map failures to `Except.error` as the
`printErrorAndDie` calls do. -/
def annotate (file_read_groups : String → String) (reg : Region)
    (a : BamAlignment) : Except String BamAlignment :=
  let rg_tag := "lobSTR;" ++ file_read_groups a.Filename ++ ";" ++
    file_read_groups a.Filename
  let a1 := (AddTag a "RG" (TagValue.z rg_tag)).getD a
  let a2 := if HasTag a1 "XS" then (RemoveTag a1 "XS").getD a1 else a1
  match AddTag a2 "XS" (TagValue.i reg.start) with
  | none => Except.error "Failed to modify XS tag"
  | some a3 =>
    let a4 := if HasTag a3 "XE" then (RemoveTag a3 "XE").getD a3 else a3
    match EditTag a4 "XE" (TagValue.i reg.stop) with
    | none => Except.error "Failed to modify XE tag"
    | some a5 => Except.ok a5

/-- The annotation step followed by the checked `SaveAlignment` call
(bam_processor.cpp lines 108-109). -/
def annotateAndWrite (file_read_groups : String → String) (reg : Region)
    (save : BamAlignment → Bool) (a : BamAlignment) :
    Except String BamAlignment :=
  match annotate file_read_groups reg a with
  | Except.error e => Except.error e
  | Except.ok a5 =>
    if save a5 then Except.ok a5
    else Except.error "Failed to save alignment for STR-spanning read"

theorem annotate_spec (frg : String → String) (reg : Region)
    (a : BamAlignment) :
    ∃ a5, annotate frg reg a = Except.ok a5 ∧
      a5.Filename = a.Filename ∧
      a5.tags "XS" = some (TagValue.i reg.start) ∧
      a5.tags "XE" = some (TagValue.i reg.stop) ∧
      a5.tags "RG" = (if (a.tags "RG").isSome then a.tags "RG"
        else some (TagValue.z ("lobSTR;" ++ frg a.Filename ++ ";" ++
          frg a.Filename))) := by
  by_cases hRG : (a.tags "RG").isSome <;>
    by_cases hXS : (a.tags "XS").isSome <;>
      by_cases hXE : (a.tags "XE").isSome <;>
        simp [annotate, AddTag, RemoveTag, EditTag, HasTag, hRG, hXS, hXE]

/-- **C6.** Annotation idempotence: applying the tag-annotation step twice to
the same record yields the same final RG, XS and XE tag values as applying it
once. -/
theorem annotate_idempotent_tag_values (frg : String → String) (reg : Region)
    (a a1 a2 : BamAlignment)
    (h1 : annotate frg reg a = Except.ok a1)
    (h2 : annotate frg reg a1 = Except.ok a2) :
    a2.tags "RG" = a1.tags "RG" ∧ a2.tags "XS" = a1.tags "XS" ∧
      a2.tags "XE" = a1.tags "XE" := by
  obtain ⟨b1, hb1, hf1, hxs1, hxe1, hrg1⟩ := annotate_spec frg reg a
  obtain ⟨b2, hb2, hf2, hxs2, hxe2, hrg2⟩ := annotate_spec frg reg a1
  have e1 : a1 = b1 := by
    have := h1.symm.trans hb1
    injection this
  subst e1
  have e2 : a2 = b2 := by
    have := h2.symm.trans hb2
    injection this
  subst e2
  have hsome : (a1.tags "RG").isSome := by
    rw [hrg1]
    split_ifs with h
    · exact h
    · rfl
  refine ⟨?_, ?_, ?_⟩
  · rw [hrg2, if_pos hsome]
  · rw [hxs2, hxs1]
  · rw [hxe2, hxe1]

/-- The filename-to-read-group map used by the concrete scenarios. -/
def frg0 : String → String := fun _ => "SAMPLE1"

/-- The record produced by annotating `a0` once. -/
def aW1 : BamAlignment := (annotate frg0 reg0 a0).toOption.getD a0

/-- The record produced by annotating `a0` twice. -/
def aW2 : BamAlignment := (annotate frg0 reg0 aW1).toOption.getD a0

theorem annotate_idempotent_tag_values_witness :
    aW2.tags "RG" = aW1.tags "RG" ∧ aW2.tags "XS" = aW1.tags "XS" ∧
      aW2.tags "XE" = aW1.tags "XE" :=
  annotate_idempotent_tag_values frg0 reg0 a0 aW1 aW2 (by rfl) (by rfl)

/-- A record that already carries an RG tag when annotation starts. -/
def aRG : BamAlignment :=
  { RefID := 0, MateRefID := 0, Position := 90, GetEndPosition := 210,
    InsertSize := 300, Filename := "run1.bam",
    tags := fun m => if m = "RG" then some (TagValue.z "preexisting") else none,
    GetEndDistToIndel := (-1, -1), HasLargestEndMatches := true,
    GetNumEndMatches := (10, 10) }

/-- **C4 counterexample.** At `aRG` the tag add used to set the provenance
tag fails (a same-named tag is already present), yet annotation and the
write both complete without aborting: this tag-mutation failure is silently
ignored, contradicting the claim that every tag-mutation failure is fatal. -/
theorem annotation_rg_failure_not_fatal :
    (AddTag aRG "RG" (TagValue.z ("lobSTR;" ++ frg0 aRG.Filename ++ ";" ++
      frg0 aRG.Filename))).isNone = true ∧
    (annotateAndWrite frg0 reg0 (fun _ => true) aRG).isOk = true := by
  constructor
  · decide
  · decide

/-- **C4 (amended).** Every write failure aborts the run fatally, but the
provenance-tag add's result is ignored: when the record already carries an
RG tag the add fails, the previous RG value is kept, and annotation
continues without aborting. -/
theorem annotation_failure_handling (frg : String → String) (reg : Region)
    (save : BamAlignment → Bool) (a : BamAlignment) :
    (∀ a5, annotate frg reg a = Except.ok a5 → save a5 = false →
      annotateAndWrite frg reg save a =
        Except.error "Failed to save alignment for STR-spanning read") ∧
    ((a.tags "RG").isSome = true →
      AddTag a "RG" (TagValue.z ("lobSTR;" ++ frg a.Filename ++ ";" ++
        frg a.Filename)) = none ∧
      ∃ a5, annotate frg reg a = Except.ok a5 ∧
        a5.tags "RG" = a.tags "RG") := by
  constructor
  · intro a5 hok hsave
    unfold annotateAndWrite
    rw [hok]
    simp [hsave]
  · intro hrg
    refine ⟨?_, ?_⟩
    · unfold AddTag HasTag
      rw [if_pos hrg]
    · obtain ⟨a5, hok, hf, hxs, hxe, hrgv⟩ := annotate_spec frg reg a
      exact ⟨a5, hok, by rw [hrgv, if_pos hrg]⟩

/-- The record produced by annotating `aRG` once. -/
def aWrg : BamAlignment := (annotate frg0 reg0 aRG).toOption.getD aRG

theorem annotation_failure_handling_witness :
    annotateAndWrite frg0 reg0 (fun _ => false) aRG =
        Except.error "Failed to save alignment for STR-spanning read" ∧
    AddTag aRG "RG" (TagValue.z ("lobSTR;" ++ frg0 aRG.Filename ++ ";" ++
      frg0 aRG.Filename)) = none := by
  constructor
  · exact (annotation_failure_handling frg0 reg0 (fun _ => false) aRG).1
      aWrg (by rfl) rfl
  · exact ((annotation_failure_handling frg0 reg0 (fun _ => false) aRG).2
      (by decide)).1

/-- `List.getD` at an index below the length of the left part of an append. -/
theorem getD_append_left {α : Type} :
    ∀ (l l2 : List α) (i : Nat) (d : α), i < l.length →
      (l ++ l2).getD i d = l.getD i d := by
  intro l
  induction l with
  | nil => intro l2 i d h; simp at h
  | cons x xs ih =>
    intro l2 i d h
    cases i with
    | zero => rfl
    | succ j =>
      simp only [List.cons_append, List.getD_cons_succ]
      exact ih l2 j d (by simpa using h)

/-- `List.getD` at the length of the left part of an append-singleton. -/
theorem getD_append_len {α : Type} :
    ∀ (l : List α) (x : α) (d : α), (l ++ [x]).getD l.length d = x := by
  intro l
  induction l with
  | nil => intro x d; rfl
  | cons y ys ih => intro x d; simp only [List.cons_append, List.getD_cons_succ, List.length_cons]; exact ih x d

theorem getD_set_ne {α : Type} :
    ∀ (l : List α) (i j : Nat) (v d : α), i ≠ j →
      (l.set i v).getD j d = l.getD j d := by
  intro l
  induction l with
  | nil => intro i j v d h; simp
  | cons x xs ih =>
    intro i j v d h
    cases i with
    | zero =>
      cases j with
      | zero => exact absurd rfl h
      | succ j2 => rfl
    | succ i2 =>
      cases j with
      | zero => rfl
      | succ j2 =>
        simp only [List.set_cons_succ, List.getD_cons_succ]
        exact ih i2 j2 v d (by omega)

theorem getD_set_self {α : Type} :
    ∀ (l : List α) (i : Nat) (v d : α), i < l.length →
      (l.set i v).getD i d = v := by
  intro l
  induction l with
  | nil => intro i v d h; simp at h
  | cons x xs ih =>
    intro i v d h
    cases i with
    | zero => rfl
    | succ j =>
      simp only [List.set_cons_succ, List.getD_cons_succ]
      exact ih j v d (by simpa using h)

theorem getD_mem {α : Type} :
    ∀ (l : List α) (i : Nat) (d : α), i < l.length → l.getD i d ∈ l := by
  intro l
  induction l with
  | nil => intro i d h; simp at h
  | cons x xs ih =>
    intro i d h
    cases i with
    | zero => exact List.mem_cons_self _ _
    | succ j => exact List.mem_cons_of_mem _ (ih j d (by simpa using h))

theorem nodup_getD_ne {α : Type} :
    ∀ (l : List α) (i j : Nat) (d : α), l.Nodup → i < l.length →
      j < l.length → i ≠ j → l.getD i d ≠ l.getD j d := by
  intro l
  induction l with
  | nil => intro i j d _ h; simp at h
  | cons x xs ih =>
    intro i j d hnd hi hj hij
    rcases List.nodup_cons.mp hnd with ⟨hx, hxs⟩
    cases i with
    | zero =>
      cases j with
      | zero => exact absurd rfl hij
      | succ j2 =>
        simp only [List.getD_cons_zero, List.getD_cons_succ]
        intro he
        exact hx (he ▸ getD_mem xs j2 d (by simpa using hj))
    | succ i2 =>
      cases j with
      | zero =>
        simp only [List.getD_cons_zero, List.getD_cons_succ]
        intro he
        exact hx (he ▸ getD_mem xs i2 d (by simpa using hi))
      | succ j2 =>
        simp only [List.getD_cons_succ]
        exact ih i2 j2 d hxs (by simpa using hi) (by simpa using hj) (by omega)

/-- The label of each record: its filename resolved through the
filename-to-read-group map (`file_read_groups[align_iter->Filename]`). -/
def labels (frg : String → String) (l : List BamAlignment) : List String :=
  l.map (fun a => frg a.Filename)

/-- The distinct labels of a list in first-seen order. -/
def firstSeenAux (acc : List String) : List String → List String
  | [] => acc
  | x :: xs => firstSeenAux (if x ∈ acc then acc else acc ++ [x]) xs

def firstSeen (l : List String) : List String := firstSeenAux [] l

theorem firstSeenAux_append :
    ∀ (l : List String) (acc : List String) (x : String),
      firstSeenAux acc (l ++ [x]) =
        (if x ∈ firstSeenAux acc l then firstSeenAux acc l
         else firstSeenAux acc l ++ [x]) := by
  intro l
  induction l with
  | nil => intro acc x; rfl
  | cons y ys ih =>
    intro acc x
    have h0 : firstSeenAux acc ((y :: ys) ++ [x]) =
        firstSeenAux (if y ∈ acc then acc else acc ++ [y]) (ys ++ [x]) := rfl
    rw [h0, ih]
    rfl

theorem firstSeen_append (l : List String) (x : String) :
    firstSeen (l ++ [x]) =
      (if x ∈ firstSeen l then firstSeen l else firstSeen l ++ [x]) :=
  firstSeenAux_append l [] x

theorem mem_firstSeenAux :
    ∀ (l acc : List String) (y : String),
      y ∈ firstSeenAux acc l ↔ y ∈ acc ∨ y ∈ l := by
  intro l
  induction l with
  | nil => intro acc y; simp [firstSeenAux]
  | cons x xs ih =>
    intro acc y
    by_cases hx : x ∈ acc
    · rw [firstSeenAux, if_pos hx, ih]
      constructor
      · rintro (h | h)
        · exact Or.inl h
        · exact Or.inr (List.mem_cons_of_mem _ h)
      · rintro (h | h)
        · exact Or.inl h
        · rcases List.mem_cons.mp h with rfl | h
          · exact Or.inl hx
          · exact Or.inr h
    · rw [firstSeenAux, if_neg hx, ih]
      simp [List.mem_append, List.mem_cons]
      tauto

theorem mem_firstSeen (l : List String) (y : String) :
    y ∈ firstSeen l ↔ y ∈ l := by
  rw [firstSeen, mem_firstSeenAux]
  simp

/-- Index of the first occurrence of a key in a list of labels. -/
def firstIdx (key : String) : List String → Option Nat
  | [] => none
  | y :: ys => if y = key then some 0 else (firstIdx key ys).map (· + 1)

theorem firstIdx_append_of_some {key : String} :
    ∀ {ns : List String} {i : Nat} (y : String),
      firstIdx key ns = some i → firstIdx key (ns ++ [y]) = some i := by
  intro ns
  induction ns with
  | nil => intro i y h; exact Option.noConfusion h
  | cons z zs ih =>
    intro i y h
    by_cases hz : z = key
    · rw [firstIdx, if_pos hz] at h
      simpa [firstIdx, hz] using h
    · rw [firstIdx, if_neg hz] at h
      rcases Option.map_eq_some'.mp h with ⟨j, hj, rfl⟩
      rw [List.cons_append, firstIdx, if_neg hz, ih y hj]
      rfl

theorem firstIdx_append_of_none {key : String} :
    ∀ {ns : List String} (y : String), firstIdx key ns = none →
      firstIdx key (ns ++ [y]) =
        (if y = key then some ns.length else none) := by
  intro ns
  induction ns with
  | nil => intro y h; simp [firstIdx]
  | cons z zs ih =>
    intro y h
    by_cases hz : z = key
    · rw [firstIdx, if_pos hz] at h
      exact Option.noConfusion h
    · rw [firstIdx, if_neg hz] at h
      have hzs : firstIdx key zs = none := by
        cases he : firstIdx key zs with
        | none => rfl
        | some j => rw [he] at h; simp at h
      rw [List.cons_append, firstIdx, if_neg hz, ih y hzs]
      by_cases hy : y = key
      · rw [if_pos hy, if_pos hy]
        rfl
      · rw [if_neg hy, if_neg hy]
        rfl

theorem firstIdx_none_iff {key : String} :
    ∀ {ns : List String}, firstIdx key ns = none ↔ key ∉ ns := by
  intro ns
  induction ns with
  | nil => simp [firstIdx]
  | cons z zs ih =>
    by_cases hz : z = key
    · simp [firstIdx, hz]
    · simp only [firstIdx, if_neg hz]
      rw [List.mem_cons, not_or]
      constructor
      · intro h
        refine ⟨fun he => hz he.symm, ?_⟩
        rw [← ih]
        cases he : firstIdx key zs with
        | none => rfl
        | some j => rw [he] at h; simp at h
      · rintro ⟨_, h⟩
        rw [← ih] at h
        simp [h]

theorem firstIdx_some_spec {key : String} :
    ∀ {ns : List String} {i : Nat}, firstIdx key ns = some i →
      i < ns.length ∧ ns.getD i "" = key := by
  intro ns
  induction ns with
  | nil => intro i h; exact Option.noConfusion h
  | cons z zs ih =>
    intro i h
    by_cases hz : z = key
    · rw [firstIdx, if_pos hz] at h
      injection h with h
      subst h
      exact ⟨by simp, hz⟩
    · rw [firstIdx, if_neg hz] at h
      rcases Option.map_eq_some'.mp h with ⟨j, hj, rfl⟩
      obtain ⟨hlt, heq⟩ := ih hj
      exact ⟨by simpa using hlt, heq⟩

/-- Key lookup in the association-list model of `std::map<std::string,int>`. -/
def lookupRG (key : String) : List (String × Nat) → Option Nat
  | [] => none
  | p :: ps => if p.1 = key then some p.2 else lookupRG key ps

theorem lookupRG_append_of_some {key : String} :
    ∀ {l : List (String × Nat)} {v : Nat} (e : String × Nat),
      lookupRG key l = some v → lookupRG key (l ++ [e]) = some v := by
  intro l
  induction l with
  | nil => intro v e h; exact Option.noConfusion h
  | cons p ps ih =>
    intro v e h
    by_cases hp : p.1 = key
    · rw [lookupRG, if_pos hp] at h
      simpa [lookupRG, hp] using h
    · rw [lookupRG, if_neg hp] at h
      simpa [lookupRG, hp] using ih e h

theorem lookupRG_append_of_none {key : String} :
    ∀ {l : List (String × Nat)} (x : String) (i : Nat),
      lookupRG key l = none →
        lookupRG key (l ++ [(x, i)]) =
          (if x = key then some i else none) := by
  intro l
  induction l with
  | nil => intro x i h; simp [lookupRG]
  | cons p ps ih =>
    intro x i h
    by_cases hp : p.1 = key
    · rw [lookupRG, if_pos hp] at h
      exact Option.noConfusion h
    · rw [lookupRG, if_neg hp] at h
      simpa [lookupRG, hp] using ih x i h

/-- The state of the read-group separation loop of
`BamProcessor::read_and_filter_reads` (bam_processor.cpp lines 114-128). -/
structure DemuxState where
  rg_indices : List (String × Nat)
  rg_names : List String
  alignments_by_rg : List (List BamAlignment)

def initDemuxState : DemuxState := ⟨[], [], []⟩

/-- `alignments_by_rg[rg_index].push_back(*align_iter)`. -/
def appendAt (l : List (List BamAlignment)) (i : Nat) (a : BamAlignment) :
    List (List BamAlignment) :=
  l.set i (l.getD i [] ++ [a])

/-- One iteration of the read-group separation loop: look the resolved label
up in `rg_indices`; on a miss allocate index `rg_indices.size()`, record it,
append the label to `rg_names` and an empty bucket to `alignments_by_rg`;
then append the record to its bucket. `std::map<std::string,int>` is
modelled as an association list with unique keys. -/
def demuxStep (file_read_groups : String → String) (st : DemuxState)
    (a : BamAlignment) : DemuxState :=
  let rg := file_read_groups a.Filename
  match lookupRG rg st.rg_indices with
  | none =>
    let rg_index := st.rg_indices.length
    { rg_indices := st.rg_indices ++ [(rg, rg_index)],
      rg_names := st.rg_names ++ [rg],
      alignments_by_rg := appendAt (st.alignments_by_rg ++ [[]]) rg_index a }
  | some rg_index =>
    { st with alignments_by_rg := appendAt st.alignments_by_rg rg_index a }

/-- The read-group separation loop over the surviving set. -/
def demux (file_read_groups : String → String)
    (alignments : List BamAlignment) : DemuxState :=
  alignments.foldl (demuxStep file_read_groups) initDemuxState

/-- Loop invariant of the demultiplexer after processing the prefix `p`. -/
def demuxInv (frg : String → String) (p : List BamAlignment)
    (st : DemuxState) : Prop :=
  st.rg_names = firstSeen (labels frg p) ∧
  st.rg_names.Nodup ∧
  (∀ k, lookupRG k st.rg_indices = firstIdx k st.rg_names) ∧
  st.rg_indices.length = st.rg_names.length ∧
  st.alignments_by_rg.length = st.rg_names.length ∧
  (∀ i, i < st.rg_names.length →
    st.alignments_by_rg.getD i [] =
      p.filter (fun x => frg x.Filename == st.rg_names.getD i ""))

theorem demuxInv_init (frg : String → String) :
    demuxInv frg [] initDemuxState := by
  refine ⟨rfl, List.nodup_nil, fun k => rfl, rfl, rfl, ?_⟩
  intro i hi
  exact absurd hi (by simp [initDemuxState])

theorem demuxInv_step (frg : String → String) (p : List BamAlignment)
    (st : DemuxState) (a : BamAlignment) (h : demuxInv frg p st) :
    demuxInv frg (p ++ [a]) (demuxStep frg st a) := by
  obtain ⟨hn, hnd, hlk, hli, hlb, hbk⟩ := h
  have hlabels : labels frg (p ++ [a]) = labels frg p ++ [frg a.Filename] := by
    simp [labels]
  cases hL : lookupRG (frg a.Filename) st.rg_indices with
  | none =>
    have hfi : firstIdx (frg a.Filename) st.rg_names = none :=
      (hlk _).symm.trans hL
    have hnotin : frg a.Filename ∉ st.rg_names := firstIdx_none_iff.mp hfi
    have hnotinp : frg a.Filename ∉ labels frg p := by
      rw [hn] at hnotin
      exact fun hmem => hnotin ((mem_firstSeen _ _).mpr hmem)
    have hstep : demuxStep frg st a =
        { rg_indices := st.rg_indices ++ [(frg a.Filename, st.rg_indices.length)],
          rg_names := st.rg_names ++ [frg a.Filename],
          alignments_by_rg :=
            appendAt (st.alignments_by_rg ++ [[]]) st.rg_indices.length a } := by
      simp only [demuxStep]
      rw [hL]
    rw [hstep]
    refine ⟨?_, ?_, ?_, ?_, ?_, ?_⟩
    · show st.rg_names ++ [frg a.Filename] = firstSeen (labels frg (p ++ [a]))
      rw [hlabels, firstSeen_append, if_neg (by rw [← hn]; exact hnotin), hn]
    · show (st.rg_names ++ [frg a.Filename]).Nodup
      refine List.Nodup.append hnd (List.nodup_singleton _) ?_
      intro x hx hx2
      rcases List.mem_singleton.mp hx2 with rfl
      exact hnotin hx
    · intro k
      show lookupRG k (st.rg_indices ++ [(frg a.Filename, st.rg_indices.length)]) =
        firstIdx k (st.rg_names ++ [frg a.Filename])
      cases hk : lookupRG k st.rg_indices with
      | some v =>
        have hfk : firstIdx k st.rg_names = some v := (hlk k).symm.trans hk
        rw [lookupRG_append_of_some _ hk, firstIdx_append_of_some _ hfk]
      | none =>
        have hfk : firstIdx k st.rg_names = none := (hlk k).symm.trans hk
        rw [lookupRG_append_of_none _ _ hk, firstIdx_append_of_none _ hfk, hli]
    · show (st.rg_indices ++ _).length = (st.rg_names ++ _).length
      simp [hli]
    · show (appendAt (st.alignments_by_rg ++ [[]]) st.rg_indices.length a).length =
        (st.rg_names ++ [frg a.Filename]).length
      rw [appendAt, List.length_set]
      simp [hlb]
    · intro i hi
      replace hi : i < st.rg_names.length + 1 := by simpa using hi
      show (appendAt (st.alignments_by_rg ++ [[]]) st.rg_indices.length a).getD i [] =
        List.filter (fun x =>
          frg x.Filename == (st.rg_names ++ [frg a.Filename]).getD i "") (p ++ [a])
      rcases Nat.lt_or_ge i st.rg_names.length with hlt | hge
      · have hne : st.rg_indices.length ≠ i := by omega
        rw [appendAt, getD_set_ne _ _ _ _ _ hne,
          getD_append_left _ _ _ _ (show i < st.alignments_by_rg.length by omega),
          getD_append_left _ _ _ _ hlt, hbk i hlt, List.filter_append]
        have hbeq : (frg a.Filename == st.rg_names.getD i "") = false := by
          refine beq_eq_false_iff_ne.mpr fun he => ?_
          exact hnotin (he ▸ getD_mem st.rg_names i "" hlt)
        have hfe : List.filter
            (fun x => frg x.Filename == st.rg_names.getD i "") [a] = [] := by
          simp only [List.filter_cons, List.filter_nil, hbeq]
          simp
        rw [hfe, List.append_nil]
      · have hieq : i = st.rg_names.length := by omega
        subst hieq
        rw [getD_append_len st.rg_names (frg a.Filename) ""]
        rw [appendAt]
        have hset : st.rg_indices.length = st.alignments_by_rg.length := by
          rw [hli, hlb]
        rw [hset, ← hlb]
        rw [getD_set_self _ _ _ _ (by simp), getD_append_len]
        have hpf : List.filter
            (fun x => frg x.Filename == frg a.Filename) p = [] := by
          rw [List.filter_eq_nil_iff]
          intro x hx
          simp only [beq_iff_eq]
          intro he
          exact hnotinp (he ▸ List.mem_map_of_mem _ hx)
        rw [List.filter_append, hpf]
        simp
  | some idx =>
    have hfi : firstIdx (frg a.Filename) st.rg_names = some idx :=
      (hlk _).symm.trans hL
    obtain ⟨hidx_lt, hidx_eq⟩ := firstIdx_some_spec hfi
    have hstep : demuxStep frg st a =
        { st with alignments_by_rg := appendAt st.alignments_by_rg idx a } := by
      simp only [demuxStep]
      rw [hL]
    rw [hstep]
    have hmem : frg a.Filename ∈ firstSeen (labels frg p) := by
      rw [← hn]
      exact hidx_eq ▸ getD_mem st.rg_names idx "" hidx_lt
    refine ⟨?_, hnd, hlk, hli, ?_, ?_⟩
    · show st.rg_names = firstSeen (labels frg (p ++ [a]))
      rw [hlabels, firstSeen_append, if_pos hmem, hn]
    · show (appendAt st.alignments_by_rg idx a).length = st.rg_names.length
      rw [appendAt, List.length_set, hlb]
    · intro i hi
      replace hi : i < st.rg_names.length := by simpa using hi
      show (appendAt st.alignments_by_rg idx a).getD i [] =
        List.filter (fun x =>
          frg x.Filename == st.rg_names.getD i "") (p ++ [a])
      by_cases hieq : i = idx
      · subst hieq
        rw [appendAt, getD_set_self _ _ _ _ (by rw [hlb]; exact hi),
          hbk i hi, List.filter_append]
        have hbt : (frg a.Filename == st.rg_names.getD i "") = true := by
          rw [hidx_eq]
          exact beq_self_eq_true _
        have hfa : List.filter
            (fun x => frg x.Filename == st.rg_names.getD i "") [a] = [a] := by
          simp only [List.filter_cons, List.filter_nil, hbt]
          simp
        rw [hfa]
      · rw [appendAt, getD_set_ne _ _ _ _ _ (fun he => hieq he.symm),
          hbk i hi, List.filter_append]
        have hbeq : (frg a.Filename == st.rg_names.getD i "") = false := by
          refine beq_eq_false_iff_ne.mpr fun he => ?_
          exact (nodup_getD_ne st.rg_names idx i "" hnd hidx_lt hi
            (fun h2 => hieq h2.symm)) (hidx_eq.trans he)
        have hfe : List.filter
            (fun x => frg x.Filename == st.rg_names.getD i "") [a] = [] := by
          simp only [List.filter_cons, List.filter_nil, hbeq]
          simp
        rw [hfe, List.append_nil]

theorem demuxInv_foldl (frg : String → String) :
    ∀ (rest p : List BamAlignment) (st : DemuxState), demuxInv frg p st →
      demuxInv frg (p ++ rest) (rest.foldl (demuxStep frg) st) := by
  intro rest
  induction rest with
  | nil => intro p st h; simpa using h
  | cons a rest ih =>
    intro p st h
    rw [List.foldl_cons]
    have h3 := ih (p ++ [a]) (demuxStep frg st a) (demuxInv_step frg p st a h)
    simpa [List.append_assoc] using h3

/-- **C7.** Demultiplexer correctness: scanning the surviving set in its
original order, the label list is the sequence of distinct resolved labels in
first-seen order (without duplicates), every record's label has a bucket,
there is exactly one bucket per label, and bucket `i` holds exactly the
records resolving to label `i`, in original scan order. -/
theorem demux_first_seen_partition (frg : String → String)
    (alignments : List BamAlignment) :
    (demux frg alignments).rg_names = firstSeen (labels frg alignments) ∧
    (demux frg alignments).rg_names.Nodup ∧
    (∀ a ∈ alignments, frg a.Filename ∈ (demux frg alignments).rg_names) ∧
    (demux frg alignments).alignments_by_rg.length =
      (demux frg alignments).rg_names.length ∧
    (∀ i, i < (demux frg alignments).rg_names.length →
      (demux frg alignments).alignments_by_rg.getD i [] =
        alignments.filter (fun x =>
          frg x.Filename == (demux frg alignments).rg_names.getD i "")) := by
  have h := demuxInv_foldl frg alignments [] initDemuxState (demuxInv_init frg)
  rw [List.nil_append] at h
  obtain ⟨hn, hnd, hlk, hli, hlb, hbk⟩ := h
  refine ⟨hn, hnd, ?_, hlb, hbk⟩
  intro a ha
  show frg a.Filename ∈
    (List.foldl (demuxStep frg) initDemuxState alignments).rg_names
  rw [hn]
  exact (mem_firstSeen _ _).mpr (List.mem_map_of_mem _ ha)

/-- A filename-to-read-group map distinguishing the two scenario files. -/
def frgW : String → String := fun s => if s = "run1.bam" then "A" else "B"

/-- A record from a second input file. -/
def aB : BamAlignment := { a0 with Filename := "run2.bam" }

theorem demux_first_seen_partition_witness :
    (demux frgW [a0, aB, a2]).rg_names = firstSeen (labels frgW [a0, aB, a2]) ∧
    (demux frgW [a0, aB, a2]).rg_names.Nodup ∧
    (∀ a ∈ [a0, aB, a2], frgW a.Filename ∈ (demux frgW [a0, aB, a2]).rg_names) ∧
    (demux frgW [a0, aB, a2]).alignments_by_rg.length =
      (demux frgW [a0, aB, a2]).rg_names.length ∧
    (∀ i, i < (demux frgW [a0, aB, a2]).rg_names.length →
      (demux frgW [a0, aB, a2]).alignments_by_rg.getD i [] =
        [a0, aB, a2].filter (fun x =>
          frgW x.Filename == (demux frgW [a0, aB, a2]).rg_names.getD i "")) :=
  demux_first_seen_partition frgW [a0, aB, a2]

/-- **C3.** RegionGroup invariant: starting from a single-region group, after
every prefix of a sequence of same-chromosome insertions the group's start is
the minimum member start, its stop is the maximum member stop, and the
member sequence is sorted by the Region total order. -/
theorem regionGroup_add_region_invariant (r0 : Region)
    (rs pre suf : List Region) (hsplit : rs = pre ++ suf)
    (hchrom : ∀ r ∈ rs, r.chrom = r0.chrom) :
    ∃ g, addRegions (mkRegionGroup r0) pre = Except.ok g ∧
      (∀ r ∈ g.regions, g.start ≤ r.start) ∧
      (∃ r ∈ g.regions, r.start = g.start) ∧
      (∀ r ∈ g.regions, r.stop ≤ g.stop) ∧
      (∃ r ∈ g.regions, r.stop = g.stop) ∧
      List.Pairwise regionLe g.regions := by
  have hch : ∀ r ∈ pre, r.chrom = (mkRegionGroup r0).chrom := by
    intro r hr
    exact hchrom r (by rw [hsplit]; exact List.mem_append_left _ hr)
  obtain ⟨g, hok, hinv, hc⟩ := groupInv_addRegions (groupInv_mk r0) hch
  exact ⟨g, hok, hinv.1, hinv.2.1, hinv.2.2.1, hinv.2.2.2.1, hinv.2.2.2.2.1⟩

/-- A second chr1 region for the group-invariant witness. -/
def regB : Region :=
  { chrom := "chr1", start := 50, stop := 180, period := 4, name := "" }

/-- A third chr1 region for the group-invariant witness. -/
def regC : Region :=
  { chrom := "chr1", start := 120, stop := 260, period := 4, name := "" }

theorem regionGroup_add_region_invariant_witness :
    ∃ g, addRegions (mkRegionGroup reg0) [regB, regC] = Except.ok g ∧
      (∀ r ∈ g.regions, g.start ≤ r.start) ∧
      (∃ r ∈ g.regions, r.start = g.start) ∧
      (∀ r ∈ g.regions, r.stop ≤ g.stop) ∧
      (∃ r ∈ g.regions, r.stop = g.stop) ∧
      List.Pairwise regionLe g.regions :=
  regionGroup_add_region_invariant reg0 [regB, regC] [regB, regC] [] (by simp)
    (by intro r hr
        simp only [List.mem_cons, List.not_mem_nil, or_false] at hr
        rcases hr with rfl | rfl <;> rfl)

/-- **C8.** Inserting a region whose chromosome differs from the group's is a
fatal usage error, for every pair of differing chromosome names; the error is
raised by the guard before any field of the group is updated, so no modified
group state is produced. -/
theorem add_region_cross_chrom_fatal (g : RegionGroup) (r : Region)
    (h : r.chrom ≠ g.chrom) :
    add_region g r =
      Except.error
        "RegionGroup can only consist of regions on a single chromosome" := by
  unfold add_region
  rw [if_pos h]

/-- A region on a different chromosome. -/
def regX : Region :=
  { chrom := "chr2", start := 10, stop := 20, period := 2, name := "" }

theorem add_region_cross_chrom_fatal_witness :
    add_region (mkRegionGroup reg0) regX =
      Except.error
        "RegionGroup can only consist of regions on a single chromosome" :=
  add_region_cross_chrom_fatal (mkRegionGroup reg0) regX (by decide)
